import Mathlib

/-!
Verification of the Black / Bachelier pricing formulas of
ql/pricingengines/blackformula.cpp and of the lazy-accessor structure of
PiecewiseYieldCurve (piecewiseyieldcurve.hpp).

The C++ `Real` type is modelled by `ℝ`; the cumulative normal distribution
(an external collaborator: CumulativeNormalDistribution, §4.1 of the design
notes) is modelled by the mathematical standard normal CDF.  Functions that
can raise (`QL_REQUIRE` / `QL_ENSURE`) return `Except QlError ℝ`.
-/

open MeasureTheory Set ProbabilityTheory

/-- Standard normal density; the model of
CumulativeNormalDistribution::derivative. -/
noncomputable def normalPdf (x : ℝ) : ℝ :=
  (Real.sqrt (2 * Real.pi))⁻¹ * Real.exp (-(x ^ 2) / 2)

/-- Standard normal CDF; the model of
CumulativeNormalDistribution::operator(). -/
noncomputable def normalCdf (x : ℝ) : ℝ :=
  ∫ t in Iic x, normalPdf t

lemma normalPdf_eq_gaussian (x : ℝ) : normalPdf x = gaussianPDFReal 0 1 x := by
  simp [normalPdf, gaussianPDFReal]

lemma normalPdf_fun_eq : normalPdf = gaussianPDFReal 0 1 :=
  funext normalPdf_eq_gaussian

lemma normalPdf_sub_eq (σ x : ℝ) : normalPdf (x - σ) = gaussianPDFReal σ 1 x := by
  rw [normalPdf_eq_gaussian, gaussianPDFReal_sub, zero_add]

lemma normalPdf_pos (x : ℝ) : 0 < normalPdf x := by
  rw [normalPdf_eq_gaussian]
  exact gaussianPDFReal_pos 0 1 x one_ne_zero

lemma normalPdf_nonneg (x : ℝ) : 0 ≤ normalPdf x := (normalPdf_pos x).le

lemma normalPdf_continuous : Continuous normalPdf := by
  unfold normalPdf
  fun_prop

lemma integrable_normalPdf : Integrable normalPdf := by
  rw [normalPdf_fun_eq]
  exact integrable_gaussianPDFReal 0 1

lemma integral_normalPdf : ∫ x, normalPdf x = 1 := by
  rw [normalPdf_fun_eq]
  exact integral_gaussianPDFReal_eq_one 0 one_ne_zero

lemma integrable_normalPdf_sub (σ : ℝ) : Integrable (fun x => normalPdf (x - σ)) := by
  rw [show (fun x => normalPdf (x - σ)) = gaussianPDFReal σ 1 from funext (normalPdf_sub_eq σ)]
  exact integrable_gaussianPDFReal σ 1

lemma integral_normalPdf_sub (σ : ℝ) : ∫ x, normalPdf (x - σ) = 1 := by
  rw [show (fun x => normalPdf (x - σ)) = gaussianPDFReal σ 1 from funext (normalPdf_sub_eq σ)]
  exact integral_gaussianPDFReal_eq_one σ one_ne_zero

lemma normalPdf_neg (x : ℝ) : normalPdf (-x) = normalPdf x := by
  simp [normalPdf, neg_sq]

lemma normalCdf_nonneg (x : ℝ) : 0 ≤ normalCdf x :=
  setIntegral_nonneg measurableSet_Iic fun t _ => normalPdf_nonneg t

lemma normalCdf_add_compl (x : ℝ) : normalCdf x + ∫ t in Ioi x, normalPdf t = 1 := by
  rw [normalCdf, intervalIntegral.integral_Iic_add_Ioi integrable_normalPdf.integrableOn
    integrable_normalPdf.integrableOn, integral_normalPdf]

lemma integral_Ioi_normalPdf (x : ℝ) : ∫ t in Ioi x, normalPdf t = 1 - normalCdf x := by
  linarith [normalCdf_add_compl x]

lemma normalCdf_le_one (x : ℝ) : normalCdf x ≤ 1 := by
  have h := normalCdf_add_compl x
  have h2 : 0 ≤ ∫ t in Ioi x, normalPdf t :=
    setIntegral_nonneg measurableSet_Ioi fun t _ => normalPdf_nonneg t
  linarith

lemma setIntegral_normalPdf_pos (s : Set ℝ) (_hs : MeasurableSet s)
    (h : 0 < volume s) : 0 < ∫ t in s, normalPdf t := by
  have hsupp : Function.support normalPdf = univ :=
    Set.eq_univ_of_forall fun x => (normalPdf_pos x).ne'
  rw [setIntegral_pos_iff_support_of_nonneg_ae
    (Filter.Eventually.of_forall fun t => normalPdf_nonneg t)
    integrable_normalPdf.integrableOn]
  simpa [hsupp] using h

lemma normalCdf_pos (x : ℝ) : 0 < normalCdf x := by
  refine setIntegral_normalPdf_pos _ measurableSet_Iic ?_
  simp [Real.volume_Iic]

lemma normalCdf_lt_one (x : ℝ) : normalCdf x < 1 := by
  have h := normalCdf_add_compl x
  have h2 : 0 < ∫ t in Ioi x, normalPdf t := by
    refine setIntegral_normalPdf_pos _ measurableSet_Ioi ?_
    simp [Real.volume_Ioi]
  linarith

lemma normalCdf_mono : Monotone normalCdf := by
  intro a b hab
  exact setIntegral_mono_set integrable_normalPdf.integrableOn
    (Filter.Eventually.of_forall fun t => normalPdf_nonneg t)
    (HasSubset.Subset.eventuallyLE (Iic_subset_Iic.mpr hab))

lemma normalCdf_neg_eq (x : ℝ) : normalCdf (-x) = 1 - normalCdf x := by
  have h1 : normalCdf (-x) = ∫ t in Iic (-x), normalPdf (-t) := by
    rw [normalCdf]
    exact setIntegral_congr_fun measurableSet_Iic fun t _ => (normalPdf_neg t).symm
  rw [h1, integral_comp_neg_Iic, neg_neg, integral_Ioi_normalPdf]

lemma setIntegral_Iic_comp_add (f : ℝ → ℝ) (b c : ℝ) :
    ∫ x in Iic b, f (x + c) = ∫ x in Iic (b + c), f x := by
  have A : MeasurableEmbedding fun x : ℝ => x + c :=
    (Homeomorph.addRight c).isClosedEmbedding.measurableEmbedding
  have B := A.setIntegral_map (μ := volume) f (Iic (b + c))
  rw [map_add_right_eq_self] at B
  have hpre : Set.preimage (fun x : ℝ => x + c) (Iic (b + c)) = Iic b := by
    ext y
    simp
  rw [hpre] at B
  exact B.symm

lemma normalCdf_shift (b σ : ℝ) :
    ∫ x in Iic b, normalPdf (x - σ) = normalCdf (b - σ) := by
  simpa [sub_eq_add_neg] using setIntegral_Iic_comp_add normalPdf b (-σ)

lemma integral_Ioi_normalPdf_sub (a σ : ℝ) :
    ∫ x in Ioi a, normalPdf (x - σ) = 1 - normalCdf (a - σ) := by
  have h := intervalIntegral.integral_Iic_add_Ioi (b := a) (integrable_normalPdf_sub σ).integrableOn
    (integrable_normalPdf_sub σ).integrableOn
  rw [integral_normalPdf_sub σ] at h
  rw [← h, normalCdf_shift]
  ring

lemma exp_mul_normalPdf (σ z : ℝ) :
    Real.exp (σ * z - σ ^ 2 / 2) * normalPdf z = normalPdf (z - σ) := by
  unfold normalPdf
  rw [show (-((z - σ) ^ 2) / 2 : ℝ) = (σ * z - σ ^ 2 / 2) + -(z ^ 2) / 2 by ring,
    Real.exp_add]
  ring

lemma sqrt_two_pi_pos : 0 < Real.sqrt (2 * Real.pi) :=
  Real.sqrt_pos.mpr (by positivity)

lemma sqrt_two_pi_le_three : Real.sqrt (2 * Real.pi) ≤ 3 := by
  have h : (2 * Real.pi : ℝ) ≤ 9 := by nlinarith [Real.pi_le_four]
  calc Real.sqrt (2 * Real.pi) ≤ Real.sqrt 9 := Real.sqrt_le_sqrt h
    _ = 3 := by
        rw [show (9 : ℝ) = 3 ^ 2 by norm_num, Real.sqrt_sq (by norm_num)]

lemma one_le_sqrt_two_pi : 1 ≤ Real.sqrt (2 * Real.pi) := by
  have h : (1 : ℝ) ≤ 2 * Real.pi := by nlinarith [Real.pi_gt_three]
  calc (1 : ℝ) = Real.sqrt 1 := Real.sqrt_one.symm
    _ ≤ Real.sqrt (2 * Real.pi) := Real.sqrt_le_sqrt h

lemma normalPdf_le_one (x : ℝ) : normalPdf x ≤ 1 := by
  unfold normalPdf
  have h1 : Real.exp (-(x ^ 2) / 2) ≤ 1 := Real.exp_le_one_iff.mpr (by nlinarith [sq_nonneg x])
  have h2 : (Real.sqrt (2 * Real.pi))⁻¹ ≤ 1 := inv_le_one_of_one_le₀ one_le_sqrt_two_pi
  have h3 : (0 : ℝ) ≤ (Real.sqrt (2 * Real.pi))⁻¹ := by positivity
  nlinarith

lemma normalPdf_neg_two_ge : (27 : ℝ)⁻¹ ≤ normalPdf (-2) := by
  have hval : normalPdf (-2) = (Real.sqrt (2 * Real.pi))⁻¹ * (Real.exp 2)⁻¹ := by
    rw [normalPdf, ← Real.exp_neg]
    norm_num
  have hexp2 : Real.exp 2 ≤ 9 := by
    have h1 : Real.exp 1 ≤ 3 := le_of_lt (lt_trans Real.exp_one_lt_d9 (by norm_num))
    have h2 : Real.exp 2 = Real.exp 1 * Real.exp 1 := by
      rw [← Real.exp_add]
      norm_num
    nlinarith [Real.exp_pos 1]
  have h9 : (9 : ℝ)⁻¹ ≤ (Real.exp 2)⁻¹ := inv_anti₀ (Real.exp_pos 2) hexp2
  have h3 : (3 : ℝ)⁻¹ ≤ (Real.sqrt (2 * Real.pi))⁻¹ :=
    inv_anti₀ sqrt_two_pi_pos sqrt_two_pi_le_three
  rw [hval]
  calc (27 : ℝ)⁻¹ = 3⁻¹ * 9⁻¹ := by norm_num
    _ ≤ (Real.sqrt (2 * Real.pi))⁻¹ * (Real.exp 2)⁻¹ :=
        mul_le_mul h3 h9 (by norm_num) (by positivity)

lemma normalPdf_ge_on_Icc (x : ℝ) (h1 : -2 ≤ x) (h2 : x ≤ -1) :
    (27 : ℝ)⁻¹ ≤ normalPdf x := by
  refine le_trans normalPdf_neg_two_ge ?_
  unfold normalPdf
  have hexp : Real.exp (-(((-2) : ℝ) ^ 2) / 2) ≤ Real.exp (-(x ^ 2) / 2) :=
    Real.exp_le_exp.mpr (by nlinarith)
  exact mul_le_mul_of_nonneg_left hexp (by positivity)

lemma normalCdf_neg_one_ge : (27 : ℝ)⁻¹ ≤ normalCdf (-1) := by
  have hmono : ∫ t in Icc (-2 : ℝ) (-1), normalPdf t ≤ normalCdf (-1) :=
    setIntegral_mono_set integrable_normalPdf.integrableOn
      (Filter.Eventually.of_forall fun t => normalPdf_nonneg t)
      (HasSubset.Subset.eventuallyLE Icc_subset_Iic_self)
  have hvol : (volume (Icc (-2 : ℝ) (-1))).toReal = 1 := by
    rw [Real.volume_Icc]
    norm_num
  have hconst := setIntegral_ge_of_const_le (μ := volume) (c := (27 : ℝ)⁻¹)
    measurableSet_Icc (by rw [Real.volume_Icc]; exact ENNReal.ofReal_ne_top)
    (fun x hx => normalPdf_ge_on_Icc x hx.1 hx.2)
    integrable_normalPdf.integrableOn
  rw [hvol, mul_one] at hconst
  exact le_trans hconst hmono

lemma blackKernel_fun_eq (F K σ : ℝ) :
    (fun z => (F * Real.exp (σ * z - σ ^ 2 / 2) - K) * normalPdf z)
      = fun z => F * normalPdf (z - σ) - K * normalPdf z := by
  funext z
  rw [← exp_mul_normalPdf σ z]
  ring

lemma integrable_blackKernel (F K σ : ℝ) :
    Integrable (fun z => (F * Real.exp (σ * z - σ ^ 2 / 2) - K) * normalPdf z) := by
  rw [blackKernel_fun_eq]
  exact ((integrable_normalPdf_sub σ).const_mul F).sub (integrable_normalPdf.const_mul K)

lemma integral_blackKernel_Ioi (F K σ a : ℝ) :
    ∫ z in Ioi a, (F * Real.exp (σ * z - σ ^ 2 / 2) - K) * normalPdf z
      = F * (1 - normalCdf (a - σ)) - K * (1 - normalCdf a) := by
  rw [blackKernel_fun_eq]
  rw [integral_sub (((integrable_normalPdf_sub σ).const_mul F).integrableOn)
    ((integrable_normalPdf.const_mul K).integrableOn)]
  rw [integral_mul_left, integral_mul_left, integral_Ioi_normalPdf_sub,
    integral_Ioi_normalPdf]

lemma integral_blackKernel_univ (F K σ : ℝ) :
    ∫ z, (F * Real.exp (σ * z - σ ^ 2 / 2) - K) * normalPdf z = F - K := by
  rw [blackKernel_fun_eq]
  rw [integral_sub ((integrable_normalPdf_sub σ).const_mul F)
    (integrable_normalPdf.const_mul K)]
  rw [integral_mul_left, integral_mul_left, integral_normalPdf_sub, integral_normalPdf]
  ring

lemma blackKernel_exp_cross (F K σ z : ℝ) (hF : 0 < F) (hK : 0 < K) (hσ : 0 < σ)
    (hz : σ / 2 - Real.log (F / K) / σ < z) :
    K / F < Real.exp (σ * z - σ ^ 2 / 2) := by
  have ha : σ * (σ / 2 - Real.log (F / K) / σ) = σ ^ 2 / 2 - Real.log (F / K) := by
    field_simp
    ring
  have h1 : -Real.log (F / K) < σ * z - σ ^ 2 / 2 := by
    have := mul_lt_mul_of_pos_left hz hσ
    rw [ha] at this
    linarith
  have hlog : Real.log (K / F) = -Real.log (F / K) := by
    rw [Real.log_div hK.ne' hF.ne', Real.log_div hF.ne' hK.ne']
    ring
  rw [show K / F = Real.exp (Real.log (K / F)) from (Real.exp_log (div_pos hK hF)).symm]
  exact Real.exp_lt_exp.mpr (by linarith)

lemma blackKernel_exp_cross_le (F K σ z : ℝ) (hF : 0 < F) (hK : 0 < K) (hσ : 0 < σ)
    (hz : z ≤ σ / 2 - Real.log (F / K) / σ) :
    Real.exp (σ * z - σ ^ 2 / 2) ≤ K / F := by
  have ha : σ * (σ / 2 - Real.log (F / K) / σ) = σ ^ 2 / 2 - Real.log (F / K) := by
    field_simp
    ring
  have h1 : σ * z - σ ^ 2 / 2 ≤ -Real.log (F / K) := by
    have := mul_le_mul_of_nonneg_left hz hσ.le
    rw [ha] at this
    linarith
  have hlog : Real.log (K / F) = -Real.log (F / K) := by
    rw [Real.log_div hK.ne' hF.ne', Real.log_div hF.ne' hK.ne']
    ring
  rw [show K / F = Real.exp (Real.log (K / F)) from (Real.exp_log (div_pos hK hF)).symm]
  exact Real.exp_le_exp.mpr (by linarith)

lemma blackKernel_pos (F K σ z : ℝ) (hF : 0 < F) (hK : 0 < K) (hσ : 0 < σ)
    (hz : σ / 2 - Real.log (F / K) / σ < z) :
    0 < (F * Real.exp (σ * z - σ ^ 2 / 2) - K) * normalPdf z := by
  have h := blackKernel_exp_cross F K σ z hF hK hσ hz
  have h2 : K < F * Real.exp (σ * z - σ ^ 2 / 2) := by
    have := (div_lt_iff₀ hF).mp h
    linarith
  exact mul_pos (by linarith) (normalPdf_pos z)

lemma blackKernel_nonpos (F K σ z : ℝ) (hF : 0 < F) (hK : 0 < K) (hσ : 0 < σ)
    (hz : z ≤ σ / 2 - Real.log (F / K) / σ) :
    (F * Real.exp (σ * z - σ ^ 2 / 2) - K) * normalPdf z ≤ 0 := by
  have h := blackKernel_exp_cross_le F K σ z hF hK hσ hz
  have h2 : F * Real.exp (σ * z - σ ^ 2 / 2) ≤ K := by
    rw [mul_comm]
    exact (le_div_iff₀ hF).mp h
  exact mul_nonpos_of_nonpos_of_nonneg (by linarith) (normalPdf_nonneg z)

lemma blackKernel_neg (F K σ z : ℝ) (hF : 0 < F) (hK : 0 < K) (hσ : 0 < σ)
    (hz : z < σ / 2 - Real.log (F / K) / σ) :
    (F * Real.exp (σ * z - σ ^ 2 / 2) - K) * normalPdf z < 0 := by
  have h := blackKernel_exp_cross_le F K σ z hF hK hσ hz.le
  have hlt : Real.exp (σ * z - σ ^ 2 / 2) < K / F := by
    have hmono : Real.exp (σ * z - σ ^ 2 / 2)
        < Real.exp (σ * ((z + (σ / 2 - Real.log (F / K) / σ)) / 2) - σ ^ 2 / 2) :=
      Real.exp_lt_exp.mpr (by nlinarith)
    have hle := blackKernel_exp_cross_le F K σ ((z + (σ / 2 - Real.log (F / K) / σ)) / 2)
      hF hK hσ (by linarith)
    linarith
  have h2 : F * Real.exp (σ * z - σ ^ 2 / 2) < K := by
    rw [mul_comm]
    exact (lt_div_iff₀ hF).mp hlt
  exact mul_neg_of_neg_of_pos (by linarith) (normalPdf_pos z)

lemma black_core_repr (F K σ : ℝ) :
    F * normalCdf (Real.log (F / K) / σ + σ / 2)
        - K * normalCdf (Real.log (F / K) / σ - σ / 2)
      = ∫ z in Ioi (σ / 2 - Real.log (F / K) / σ),
          (F * Real.exp (σ * z - σ ^ 2 / 2) - K) * normalPdf z := by
  rw [integral_blackKernel_Ioi]
  rw [show σ / 2 - Real.log (F / K) / σ - σ = -(Real.log (F / K) / σ + σ / 2) by ring,
    show σ / 2 - Real.log (F / K) / σ = -(Real.log (F / K) / σ - σ / 2) by ring,
    normalCdf_neg_eq, normalCdf_neg_eq]
  ring

lemma blackKernel_Iic_neg (F K σ : ℝ) (hF : 0 < F) (hK : 0 < K) (hσ : 0 < σ) :
    ∫ z in Iic (σ / 2 - Real.log (F / K) / σ),
      (F * Real.exp (σ * z - σ ^ 2 / 2) - K) * normalPdf z < 0 := by
  have hint : Integrable (fun z => -((F * Real.exp (σ * z - σ ^ 2 / 2) - K) * normalPdf z)) := by
    exact (integrable_blackKernel F K σ).neg
  have hpos : 0 < ∫ z in Iic (σ / 2 - Real.log (F / K) / σ),
      -((F * Real.exp (σ * z - σ ^ 2 / 2) - K) * normalPdf z) := by
    rw [setIntegral_pos_iff_support_of_nonneg_ae
      ((ae_restrict_iff' measurableSet_Iic).mpr
        (Filter.Eventually.of_forall fun z hz =>
          neg_nonneg.mpr (blackKernel_nonpos F K σ z hF hK hσ hz)))
      hint.integrableOn]
    have hsub : Iio (σ / 2 - Real.log (F / K) / σ) ⊆
        Function.support (fun z => -((F * Real.exp (σ * z - σ ^ 2 / 2) - K) * normalPdf z))
          ∩ Iic (σ / 2 - Real.log (F / K) / σ) := fun z hz =>
      ⟨neg_ne_zero.mpr (blackKernel_neg F K σ z hF hK hσ hz).ne,
        mem_Iic.mpr (le_of_lt (mem_Iio.mp hz))⟩
    refine lt_of_lt_of_le ?_ (measure_mono hsub)
    simp [Real.volume_Iio]
  have heq : ∫ z in Iic (σ / 2 - Real.log (F / K) / σ),
      -((F * Real.exp (σ * z - σ ^ 2 / 2) - K) * normalPdf z)
    = -∫ z in Iic (σ / 2 - Real.log (F / K) / σ),
      (F * Real.exp (σ * z - σ ^ 2 / 2) - K) * normalPdf z := integral_neg _
  rw [heq] at hpos
  linarith

lemma black_core_gt_max (F K σ : ℝ) (hF : 0 < F) (hK : 0 < K) (hσ : 0 < σ) :
    max (F - K) 0 < F * normalCdf (Real.log (F / K) / σ + σ / 2)
        - K * normalCdf (Real.log (F / K) / σ - σ / 2) := by
  have hrepr := black_core_repr F K σ
  have hpos : 0 < ∫ z in Ioi (σ / 2 - Real.log (F / K) / σ),
      (F * Real.exp (σ * z - σ ^ 2 / 2) - K) * normalPdf z := by
    rw [setIntegral_pos_iff_support_of_nonneg_ae
      ((ae_restrict_iff' measurableSet_Ioi).mpr
        (Filter.Eventually.of_forall fun z hz => (blackKernel_pos F K σ z hF hK hσ hz).le))
      (integrable_blackKernel F K σ).integrableOn]
    have hsub : Ioi (σ / 2 - Real.log (F / K) / σ) ⊆
        Function.support (fun z => (F * Real.exp (σ * z - σ ^ 2 / 2) - K) * normalPdf z)
          ∩ Ioi (σ / 2 - Real.log (F / K) / σ) := fun z hz =>
      ⟨(blackKernel_pos F K σ z hF hK hσ hz).ne', hz⟩
    refine lt_of_lt_of_le ?_ (measure_mono hsub)
    simp [Real.volume_Ioi]
  have hsplit : (∫ z in Iic (σ / 2 - Real.log (F / K) / σ),
        (F * Real.exp (σ * z - σ ^ 2 / 2) - K) * normalPdf z)
      + ∫ z in Ioi (σ / 2 - Real.log (F / K) / σ),
        (F * Real.exp (σ * z - σ ^ 2 / 2) - K) * normalPdf z = F - K := by
    rw [intervalIntegral.integral_Iic_add_Ioi (integrable_blackKernel F K σ).integrableOn
      (integrable_blackKernel F K σ).integrableOn, integral_blackKernel_univ]
  have hneg := blackKernel_Iic_neg F K σ hF hK hσ
  rw [hrepr]
  exact max_lt (by linarith) hpos

lemma black_core_nonneg (F K σ : ℝ) (hF : 0 < F) (hK : 0 < K) (hσ : 0 < σ) :
    0 ≤ F * normalCdf (Real.log (F / K) / σ + σ / 2)
        - K * normalCdf (Real.log (F / K) / σ - σ / 2) :=
  le_of_lt (lt_of_le_of_lt (le_max_right _ _) (black_core_gt_max F K σ hF hK hσ))

lemma black_core_ge_intrinsic (F K σ : ℝ) (hF : 0 < F) (hK : 0 < K) (hσ : 0 < σ) :
    F - K ≤ F * normalCdf (Real.log (F / K) / σ + σ / 2)
        - K * normalCdf (Real.log (F / K) / σ - σ / 2) :=
  le_of_lt (lt_of_le_of_lt (le_max_left _ _) (black_core_gt_max F K σ hF hK hσ))

lemma black_put_core_gt_max (F K σ : ℝ) (hF : 0 < F) (hK : 0 < K) (hσ : 0 < σ) :
    max (K - F) 0 < K * normalCdf (-(Real.log (F / K) / σ - σ / 2))
        - F * normalCdf (-(Real.log (F / K) / σ + σ / 2)) := by
  have h := black_core_gt_max F K σ hF hK hσ
  have h1 : F - K < F * normalCdf (Real.log (F / K) / σ + σ / 2)
      - K * normalCdf (Real.log (F / K) / σ - σ / 2) :=
    lt_of_le_of_lt (le_max_left _ _) h
  have h2 : 0 < F * normalCdf (Real.log (F / K) / σ + σ / 2)
      - K * normalCdf (Real.log (F / K) / σ - σ / 2) :=
    lt_of_le_of_lt (le_max_right _ _) h
  rw [normalCdf_neg_eq, normalCdf_neg_eq]
  have hexpand : K * (1 - normalCdf (Real.log (F / K) / σ - σ / 2))
      - F * (1 - normalCdf (Real.log (F / K) / σ + σ / 2))
    = (K - F) + (F * normalCdf (Real.log (F / K) / σ + σ / 2)
      - K * normalCdf (Real.log (F / K) / σ - σ / 2)) := by ring
  rw [hexpand]
  exact max_lt (by linarith) (by linarith)

/-- Option::Type of the source, {Call, Put}. -/
inductive OptionType where
  | Call : OptionType
  | Put : OptionType
deriving DecidableEq

/-- Numeric value of Option::Type: Call = 1, Put = -1 (the enum is used as a
multiplicative sign throughout blackformula.cpp). -/
def optionSign : OptionType → ℝ
  | OptionType.Call => 1
  | OptionType.Put => -1

/-- Error taxonomy of §7: QL_REQUIRE raises InvalidArgument, QL_ENSURE raises a
numeric-guard violation. -/
inductive QlError where
  | invalidArgument : QlError
  | guardViolation : QlError
deriving DecidableEq

/-- Embedding of blackFormula (blackformula.cpp lines 32-65). -/
noncomputable def blackFormula (t : OptionType)
    (strike forward stdDev discount displacement : ℝ) : Except QlError ℝ :=
  if 0 ≤ strike ∧ 0 < forward ∧ 0 ≤ stdDev ∧ 0 < discount ∧ 0 ≤ displacement then
    let forward1 := forward + displacement
    let strike1 := strike + displacement
    if stdDev = 0 then
      Except.ok (max ((forward1 - strike1) * optionSign t) 0 * discount)
    else if strike1 = 0 then
      Except.ok (match t with
        | OptionType.Call => forward1 * discount
        | OptionType.Put => 0)
    else
      let d1 := Real.log (forward1 / strike1) / stdDev + 0.5 * stdDev
      let d2 := d1 - stdDev
      let result := discount * optionSign t *
        (forward1 * normalCdf (optionSign t * d1) - strike1 * normalCdf (optionSign t * d2))
      if 0 ≤ result then Except.ok result else Except.error QlError.guardViolation
  else Except.error QlError.invalidArgument

/-- Embedding of blackFormulaImpliedStdDevApproximation (lines 82-125). -/
noncomputable def blackFormulaImpliedStdDevApproximation (t : OptionType)
    (strike forward blackPrice discount displacement : ℝ) : Except QlError ℝ :=
  if 0 ≤ strike ∧ 0 < forward ∧ 0 ≤ blackPrice ∧ 0 < discount ∧ 0 ≤ displacement then
    let forward1 := forward + displacement
    let strike1 := strike + displacement
    let stdDev :=
      if strike1 = forward1 then
        blackPrice / discount * Real.sqrt (2 * Real.pi) / forward1
      else
        let moneynessDelta := optionSign t * (forward1 - strike1)
        let moneynessDelta2 := moneynessDelta / 2
        let temp := blackPrice / discount - moneynessDelta2
        let moneynessDeltaPI := moneynessDelta * moneynessDelta / Real.pi
        let temp2 := temp * temp - moneynessDeltaPI
        let temp2c := if temp2 < 0 then 0 else temp2
        let temp3 := temp + Real.sqrt temp2c
        temp3 * Real.sqrt (2 * Real.pi) / (forward1 + strike1)
    if 0 ≤ stdDev then Except.ok stdDev else Except.error QlError.guardViolation
  else Except.error QlError.invalidArgument

/-- Embedding of BlackImpliedStdDevHelper::operator() (lines 158-174), as the
objective function handed to the root finder.  The helper is constructed with
displacement 0 (line 218), so the signed quantities are formed directly from
the strike and forward passed to the constructor; `price` is the undiscounted
Black price. -/
noncomputable def blackImpliedStdDevHelperF (t : OptionType)
    (strike forward price : ℝ) : ℝ → ℝ := fun stdDev =>
  let halfOptionType := 0.5 * optionSign t
  let signedStrike := optionSign t * strike
  let signedForward := optionSign t * forward
  let signedMoneyness := optionSign t * Real.log (forward / strike)
  if stdDev = 0 then max (signedForward - signedStrike) 0 - price
  else
    let temp := halfOptionType * stdDev
    let d := signedMoneyness / stdDev
    let signedD1 := d + temp
    let signedD2 := d - temp
    max 0 (signedForward * normalCdf signedD1 - signedStrike * normalCdf signedD2) - price

/-- Embedding of blackFormulaImpliedStdDev (lines 191-228).  The external
NewtonSafe root finder (newtonsafe.hpp, outside this repository) is passed in
as a function of (objective, accuracy, guess, xMin, xMax); a caller-supplied
guess of Null<Real> is modelled by `Option.none`. -/
noncomputable def blackFormulaImpliedStdDev
    (solve : (ℝ → ℝ) → ℝ → ℝ → ℝ → ℝ → ℝ) (t : OptionType)
    (strike forward blackPrice discount : ℝ) (guess : Option ℝ)
    (accuracy displacement : ℝ) : Except QlError ℝ :=
  if 0 ≤ strike ∧ 0 < forward ∧ 0 ≤ blackPrice ∧ 0 < discount ∧ 0 ≤ displacement then
    let strike1 := strike + displacement
    let forward1 := forward + displacement
    let seed : Except QlError ℝ :=
      match guess with
      | Option.none =>
          blackFormulaImpliedStdDevApproximation t strike1 forward1
            blackPrice discount displacement
      | Option.some g =>
          if 0 ≤ g then Except.ok g else Except.error QlError.invalidArgument
    match seed with
    | Except.error e => Except.error e
    | Except.ok g =>
        if 0 ≤ strike1 ∧ 0 < forward1 ∧ 0 ≤ blackPrice / discount then
          let stdDev := solve (blackImpliedStdDevHelperF t strike1 forward1
            (blackPrice / discount)) accuracy g 0 3
          if 0 ≤ stdDev then Except.ok stdDev else Except.error QlError.guardViolation
        else Except.error QlError.invalidArgument
  else Except.error QlError.invalidArgument

/-- Embedding of blackFormulaCashItmProbability (lines 245-258); the function
has no QL_REQUIRE/QL_ENSURE, it is pure and total. -/
noncomputable def blackFormulaCashItmProbability (t : OptionType)
    (strike forward stdDev displacement : ℝ) : ℝ :=
  if stdDev = 0 then
    if strike * optionSign t < forward * optionSign t then 1 else 0
  else if strike = 0 then
    (match t with
      | OptionType.Call => 1
      | OptionType.Put => 0)
  else
    let d1 := Real.log ((forward + displacement) / (strike + displacement)) / stdDev
      + 0.5 * stdDev
    let d2 := d1 - stdDev
    normalCdf (optionSign t * d2)

/-- Embedding of blackFormulaStdDevDerivative (lines 271-290). -/
noncomputable def blackFormulaStdDevDerivative
    (strike forward stdDev discount displacement : ℝ) : Except QlError ℝ :=
  if 0 ≤ strike ∧ 0 < forward ∧ 0 ≤ stdDev ∧ 0 < discount ∧ 0 ≤ displacement then
    let forward1 := forward + displacement
    let strike1 := strike + displacement
    let d1 := Real.log (forward1 / strike1) / stdDev + 0.5 * stdDev
    Except.ok (discount * forward1 * normalPdf d1)
  else Except.error QlError.invalidArgument

/-- Embedding of bachelierBlackFormula (lines 304-324), including the
parenthesisation of line 317 exactly as written in the source:
`discount*stdDev*phi.derivative(h) + d*phi(h)`. -/
noncomputable def bachelierBlackFormula (t : OptionType)
    (strike forward stdDev discount : ℝ) : Except QlError ℝ :=
  if 0 ≤ stdDev ∧ 0 < discount then
    let d := (forward - strike) * optionSign t
    let h := d / stdDev
    if stdDev = 0 then Except.ok (discount * max d 0)
    else
      let result := discount * stdDev * normalPdf h + d * normalCdf h
      if 0 ≤ result then Except.ok result else Except.error QlError.guardViolation
  else Except.error QlError.invalidArgument

lemma black_core_signed_nonneg (t : OptionType) (F K σ : ℝ)
    (hF : 0 < F) (hK : 0 < K) (hσ : 0 < σ) :
    0 ≤ optionSign t * (F * normalCdf (optionSign t * (Real.log (F / K) / σ + 0.5 * σ))
      - K * normalCdf (optionSign t * (Real.log (F / K) / σ + 0.5 * σ - σ))) := by
  cases t
  case Call =>
    have e1 : (1 : ℝ) * (Real.log (F / K) / σ + 0.5 * σ) = Real.log (F / K) / σ + σ / 2 := by
      ring
    have e2 : (1 : ℝ) * (Real.log (F / K) / σ + 0.5 * σ - σ)
        = Real.log (F / K) / σ - σ / 2 := by ring
    simp only [optionSign, e1, e2, one_mul]
    exact black_core_nonneg F K σ hF hK hσ
  case Put =>
    have e1 : (-1 : ℝ) * (Real.log (F / K) / σ + 0.5 * σ)
        = -(Real.log (F / K) / σ + σ / 2) := by ring
    have e2 : (-1 : ℝ) * (Real.log (F / K) / σ + 0.5 * σ - σ)
        = -(Real.log (F / K) / σ - σ / 2) := by ring
    simp only [optionSign, e1, e2]
    have h := black_put_core_gt_max F K σ hF hK hσ
    have h0 : (0 : ℝ) ≤ max (K - F) 0 := le_max_right _ _
    linarith

/-- Definition following the wording of the specification (§4.2 price and §8
boundary properties) for the Black price: the value the spec says each branch
returns. -/
noncomputable def blackSpecValue (t : OptionType)
    (strike forward stdDev discount displacement : ℝ) : ℝ :=
  let F := forward + displacement
  let K := strike + displacement
  if stdDev = 0 then max ((F - K) * optionSign t) 0 * discount
  else if K = 0 then
    (match t with
      | OptionType.Call => discount * F
      | OptionType.Put => 0)
  else
    let d1 := Real.log (F / K) / stdDev + stdDev / 2
    let d2 := d1 - stdDev
    discount * optionSign t * (F * normalCdf (optionSign t * d1) - K * normalCdf (optionSign t * d2))

lemma blackFormula_eq_specValue (t : OptionType)
    (strike forward stdDev discount displacement : ℝ)
    (h1 : 0 ≤ strike) (h2 : 0 < forward) (h3 : 0 ≤ stdDev)
    (h4 : 0 < discount) (h5 : 0 ≤ displacement) :
    blackFormula t strike forward stdDev discount displacement
      = Except.ok (blackSpecValue t strike forward stdDev discount displacement) := by
  by_cases hσ : stdDev = 0
  · simp [blackFormula, blackSpecValue, hσ, h1, h2, h3, h4, h5]
  · by_cases hK : strike + displacement = 0
    · cases t <;>
        simp [blackFormula, blackSpecValue, hσ, hK, h1, h2, h3, h4, h5, mul_comm]
    · have hσpos : 0 < stdDev := lt_of_le_of_ne h3 (Ne.symm hσ)
      have hKpos : 0 < strike + displacement :=
        lt_of_le_of_ne (by linarith) (Ne.symm hK)
      have hFpos : 0 < forward + displacement := by linarith
      have hres : 0 ≤ discount * optionSign t *
          ((forward + displacement) * normalCdf (optionSign t *
            (Real.log ((forward + displacement) / (strike + displacement)) / stdDev
              + 0.5 * stdDev))
          - (strike + displacement) * normalCdf (optionSign t *
            (Real.log ((forward + displacement) / (strike + displacement)) / stdDev
              + 0.5 * stdDev - stdDev))) := by
        have := black_core_signed_nonneg t (forward + displacement)
          (strike + displacement) stdDev hFpos hKpos hσpos
        rw [mul_assoc]
        exact mul_nonneg h4.le this
      simp only [blackFormula, blackSpecValue, if_pos (And.intro h1 (And.intro h2
        (And.intro h3 (And.intro h4 h5)))), if_neg hσ, if_neg hK, if_pos hres]
      have e1 : Real.log ((forward + displacement) / (strike + displacement)) / stdDev
          + 0.5 * stdDev
        = Real.log ((forward + displacement) / (strike + displacement)) / stdDev
          + stdDev / 2 := by ring
      rw [e1]

/-- C2: under the validated preconditions, blackFormula returns exactly the
branch values stated in the spec: the discounted intrinsic value at zero
stdDev, discount times the shifted forward for a zero shifted strike (call) and
0 (put), and the discounted signed difference of Φ-weighted forward and strike
otherwise. -/
theorem blackFormula_matches_spec (t : OptionType)
    (strike forward stdDev discount displacement : ℝ)
    (h1 : 0 ≤ strike) (h2 : 0 < forward) (h3 : 0 ≤ stdDev)
    (h4 : 0 < discount) (h5 : 0 ≤ displacement) :
    blackFormula t strike forward stdDev discount displacement
      = Except.ok (blackSpecValue t strike forward stdDev discount displacement) :=
  blackFormula_eq_specValue t strike forward stdDev discount displacement h1 h2 h3 h4 h5

theorem blackFormula_matches_spec_witness :
    (0 : ℝ) ≤ 90 ∧ (0 : ℝ) < 100 ∧ (0 : ℝ) ≤ 0 ∧ (0 : ℝ) < 95 / 100 ∧
    blackFormula OptionType.Call 90 100 0 (95 / 100) 0
      = Except.ok (blackSpecValue OptionType.Call 90 100 0 (95 / 100) 0) ∧
    blackSpecValue OptionType.Call 90 100 0 (95 / 100) 0 = 19 / 2 :=
  ⟨by norm_num, by norm_num, le_refl 0, by norm_num,
    blackFormula_matches_spec OptionType.Call 90 100 0 (95 / 100) 0
      (by norm_num) (by norm_num) (le_refl 0) (by norm_num) (le_refl 0),
    by norm_num [blackSpecValue, optionSign]⟩

lemma normalCdf_neg_one_le_pdf : normalCdf (-1) ≤ normalPdf (-1) := by
  have hptw : ∀ t ∈ Iic (-1 : ℝ),
      normalPdf t ≤ (Real.sqrt (2 * Real.pi))⁻¹ * Real.exp (t + 1 / 2) := by
    intro t ht
    unfold normalPdf
    refine mul_le_mul_of_nonneg_left ?_ (by positivity)
    refine Real.exp_le_exp.mpr ?_
    have h1 : t ≤ -1 := ht
    nlinarith [sq_nonneg (t + 1)]
  have hint : IntegrableOn (fun t => (Real.sqrt (2 * Real.pi))⁻¹ * Real.exp (t + 1 / 2))
      (Iic (-1 : ℝ)) := by
    have h0 : IntegrableOn (fun t : ℝ => Real.exp (t + 1 / 2)) (Iic (-1 : ℝ)) := by
      have he : (fun t : ℝ => Real.exp (t + 1 / 2))
          = fun t : ℝ => Real.exp t * Real.exp (1 / 2) := by
        funext t
        rw [← Real.exp_add]
      rw [he]
      exact (integrableOn_exp_Iic (-1)).mul_const _
    exact h0.const_mul _
  have hmono := setIntegral_mono_on integrable_normalPdf.integrableOn hint
    measurableSet_Iic hptw
  have hval : ∫ t in Iic (-1 : ℝ), (Real.sqrt (2 * Real.pi))⁻¹ * Real.exp (t + 1 / 2)
      = (Real.sqrt (2 * Real.pi))⁻¹ * Real.exp (-(1 / 2) : ℝ) := by
    rw [integral_mul_left]
    have he : ∀ t : ℝ, Real.exp (t + 1 / 2) = Real.exp t * Real.exp (1 / 2) := fun t => by
      rw [← Real.exp_add]
    simp_rw [he]
    rw [integral_mul_right, integral_exp_Iic, ← Real.exp_add]
    norm_num
  rw [hval] at hmono
  have hgoal : normalCdf (-1) ≤ (Real.sqrt (2 * Real.pi))⁻¹ * Real.exp (-(1 / 2) : ℝ) := hmono
  refine le_trans hgoal ?_
  unfold normalPdf
  norm_num

lemma bachelier_buggy_result_neg (c : ℝ) (hc0 : 0 ≤ c) (hc : c ≤ 1 / 28) :
    c * 1 * normalPdf (-1) + -1 * normalCdf (-1) < 0 := by
  have h1 : normalPdf (-1) ≤ 1 := normalPdf_le_one (-1)
  have h2 : (27 : ℝ)⁻¹ ≤ normalCdf (-1) := normalCdf_neg_one_ge
  have h3 : 0 ≤ normalPdf (-1) := normalPdf_nonneg _
  nlinarith

/-- C1: at the valid input (Call, strike 1, forward 0, stdDev 1, discount
1/100) the code's expression `discount*stdDev*phi.derivative(h) + d*phi(h)`
(line 317, discount applied only to the first term) is negative, so the
QL_ENSURE guard fires and the function raises instead of returning the
spec value discount*(stdDev*φ(h) + d*Φ(h)), which is non-negative here. -/
theorem bachelierBlackFormula_discount_bug :
    bachelierBlackFormula OptionType.Call 1 0 1 (1 / 100)
        = Except.error QlError.guardViolation ∧
    0 ≤ (1 / 100 : ℝ) * (1 * normalPdf (-1) + -1 * normalCdf (-1)) := by
  constructor
  · unfold bachelierBlackFormula
    rw [if_pos (show (0 : ℝ) ≤ 1 ∧ (0 : ℝ) < 1 / 100 by norm_num)]
    norm_num [optionSign]
    intro hcon
    exfalso
    have h := bachelier_buggy_result_neg (1 / 100) (by norm_num) (by norm_num)
    linarith
  · have h := normalCdf_neg_one_le_pdf
    have h2 := normalCdf_nonneg (-1)
    nlinarith

/-- C3: the non-negativity post-condition of bachelierBlackFormula does fire
on a valid input (stdDev 1 ≥ 0, discount 1/50 > 0): because line 317 applies
the discount only to the stdDev*φ(h) term, the computed result is negative
for Call, strike 1, forward 0, and the function raises the guard error. -/
theorem bachelierBlackFormula_guard_fires :
    (0 : ℝ) ≤ 1 ∧ (0 : ℝ) < 1 / 50 ∧
    bachelierBlackFormula OptionType.Call 1 0 1 (1 / 50)
      = Except.error QlError.guardViolation := by
  refine ⟨by norm_num, by norm_num, ?_⟩
  unfold bachelierBlackFormula
  rw [if_pos (show (0 : ℝ) ≤ 1 ∧ (0 : ℝ) < 1 / 50 by norm_num)]
  norm_num [optionSign]
  intro hcon
  exfalso
  have h := bachelier_buggy_result_neg (1 / 50) (by norm_num) (by norm_num)
  linarith

lemma blackSpecValue_parity (strike forward stdDev discount displacement : ℝ)
    (h1 : 0 ≤ strike) (h5 : 0 ≤ displacement) :
    blackSpecValue OptionType.Call strike forward stdDev discount displacement
      - blackSpecValue OptionType.Put strike forward stdDev discount displacement
      = discount * (forward - strike) := by
  by_cases hσ : stdDev = 0
  · simp only [blackSpecValue, if_pos hσ, optionSign]
    rcases le_total (forward - strike) 0 with h | h
    · rw [max_eq_right (by nlinarith), max_eq_left (by nlinarith)]
      ring
    · rw [max_eq_left (by nlinarith), max_eq_right (by nlinarith)]
      ring
  · by_cases hK : strike + displacement = 0
    · have hs0 : strike = 0 := by linarith
      have hd0 : displacement = 0 := by linarith
      subst hs0
      subst hd0
      simp [blackSpecValue, hσ]
    · simp only [blackSpecValue, if_neg hσ, if_neg hK, optionSign, one_mul, neg_one_mul]
      rw [normalCdf_neg_eq, normalCdf_neg_eq]
      ring

/-- C10: put-call parity holds in every branch of blackFormula: under the
validated preconditions both the call and the put price are returned (no guard
fires) and their difference is discount*(forward - strike). -/
theorem blackFormula_put_call_parity
    (strike forward stdDev discount displacement : ℝ)
    (h1 : 0 ≤ strike) (h2 : 0 < forward) (h3 : 0 ≤ stdDev)
    (h4 : 0 < discount) (h5 : 0 ≤ displacement) :
    ∃ c p,
      blackFormula OptionType.Call strike forward stdDev discount displacement
        = Except.ok c ∧
      blackFormula OptionType.Put strike forward stdDev discount displacement
        = Except.ok p ∧
      c - p = discount * (forward - strike) :=
  ⟨blackSpecValue OptionType.Call strike forward stdDev discount displacement,
    blackSpecValue OptionType.Put strike forward stdDev discount displacement,
    blackFormula_eq_specValue OptionType.Call strike forward stdDev discount displacement
      h1 h2 h3 h4 h5,
    blackFormula_eq_specValue OptionType.Put strike forward stdDev discount displacement
      h1 h2 h3 h4 h5,
    blackSpecValue_parity strike forward stdDev discount displacement h1 h5⟩

theorem blackFormula_put_call_parity_witness :
    (0 : ℝ) ≤ 90 ∧ (0 : ℝ) < 100 ∧ (0 : ℝ) ≤ 2 ∧ (0 : ℝ) < 1 ∧
    ∃ c p,
      blackFormula OptionType.Call 90 100 2 1 0 = Except.ok c ∧
      blackFormula OptionType.Put 90 100 2 1 0 = Except.ok p ∧
      c - p = 1 * (100 - 90) :=
  ⟨by norm_num, by norm_num, by norm_num, by norm_num,
    blackFormula_put_call_parity 90 100 2 1 0
      (by norm_num) (by norm_num) (by norm_num) (by norm_num) (le_refl 0)⟩

/-- C5: blackFormulaCashItmProbability tests the UNSHIFTED strike against zero
(line 252) before any displacement shift, so at Call, strike 0, forward 1,
stdDev 1, displacement 1 it returns 1, while the value stated in the spec,
Φ(typeSign*d2) with d2 formed from the shifted forward 2 and shifted strike 1,
is strictly below 1. -/
theorem blackFormulaCashItmProbability_unshifted_strike_check :
    blackFormulaCashItmProbability OptionType.Call 0 1 1 1 = 1 ∧
    normalCdf (optionSign OptionType.Call
      * (Real.log (((1 : ℝ) + 1) / (0 + 1)) / 1 + 0.5 * 1 - 1)) < 1 := by
  constructor
  · simp [blackFormulaCashItmProbability]
  · exact normalCdf_lt_one _

/-- C8: under the same validation as price (which admits stdDev = 0),
blackFormulaStdDevDerivative returns discount*F*φ(d1) with F the shifted
forward and d1 = ln(F/K)/stdDev + stdDev/2; there is no positivity check on
stdDev. -/
theorem blackFormulaStdDevDerivative_formula
    (strike forward stdDev discount displacement : ℝ)
    (h1 : 0 ≤ strike) (h2 : 0 < forward) (h3 : 0 ≤ stdDev)
    (h4 : 0 < discount) (h5 : 0 ≤ displacement) :
    blackFormulaStdDevDerivative strike forward stdDev discount displacement
      = Except.ok (discount * (forward + displacement) * normalPdf
          (Real.log ((forward + displacement) / (strike + displacement)) / stdDev
            + 0.5 * stdDev)) := by
  simp [blackFormulaStdDevDerivative, h1, h2, h3, h4, h5]

theorem blackFormulaStdDevDerivative_formula_witness :
    (0 : ℝ) ≤ 1 ∧ (0 : ℝ) < 1 ∧ (0 : ℝ) ≤ 0 ∧ (0 : ℝ) < 1 ∧
    blackFormulaStdDevDerivative 1 1 0 1 0
      = Except.ok (1 * (1 + 0) * normalPdf
          (Real.log ((1 + 0) / (1 + 0)) / 0 + 0.5 * 0)) :=
  ⟨by norm_num, by norm_num, le_refl 0, by norm_num,
    blackFormulaStdDevDerivative_formula 1 1 0 1 0
      (by norm_num) (by norm_num) (le_refl 0) (by norm_num) (le_refl 0)⟩

lemma approx_atm_eval :
    blackFormulaImpliedStdDevApproximation OptionType.Call 2 2 1 1 1
      = Except.ok (Real.sqrt (2 * Real.pi) / 3) := by
  simp only [blackFormulaImpliedStdDevApproximation,
    if_pos (show (0 : ℝ) ≤ 2 ∧ (0 : ℝ) < 2 ∧ (0 : ℝ) ≤ 1 ∧ (0 : ℝ) < 1 ∧ (0 : ℝ) ≤ 1
      by norm_num)]
  norm_num
  intro hlt
  exfalso
  have h0 : (0 : ℝ) ≤ Real.sqrt 2 * Real.sqrt Real.pi / 3 := by positivity
  linarith

lemma approx_atm_eval_unshifted :
    blackFormulaImpliedStdDevApproximation OptionType.Call 1 1 1 1 1
      = Except.ok (Real.sqrt (2 * Real.pi) / 2) := by
  simp only [blackFormulaImpliedStdDevApproximation,
    if_pos (show (0 : ℝ) ≤ 1 ∧ (0 : ℝ) < 1 ∧ (0 : ℝ) ≤ 1 ∧ (0 : ℝ) < 1 ∧ (0 : ℝ) ≤ 1
      by norm_num)]
  norm_num
  intro hlt
  exfalso
  have h0 : (0 : ℝ) ≤ Real.sqrt 2 * Real.sqrt Real.pi / 2 := by positivity
  linarith

/-- C4 counterexample: with a root finder that simply reports the seed it was
handed, calling blackFormulaImpliedStdDev at strike 1, forward 1,
displacement 1 (no caller guess) shows the seed is the approximation evaluated
at the already-shifted strike 2 and forward 2 with the displacement applied
again (giving sqrt(2π)/3), not the approximation at the original strike and
forward (which gives sqrt(2π)/2). -/
theorem blackFormulaImpliedStdDev_seed_counterexample :
    blackFormulaImpliedStdDev (fun _f _acc g _lo _hi => g)
        OptionType.Call 1 1 1 1 Option.none 0 1
      = Except.ok (Real.sqrt (2 * Real.pi) / 3) ∧
    blackFormulaImpliedStdDevApproximation OptionType.Call 1 1 1 1 1
      = Except.ok (Real.sqrt (2 * Real.pi) / 2) ∧
    Real.sqrt (2 * Real.pi) / 3 ≠ Real.sqrt (2 * Real.pi) / 2 := by
  refine ⟨?_, approx_atm_eval_unshifted, ?_⟩
  · have happrox : blackFormulaImpliedStdDevApproximation OptionType.Call (1 + 1) (1 + 1) 1 1 1
        = Except.ok (Real.sqrt (2 * Real.pi) / 3) := by
      norm_num [approx_atm_eval]
    simp only [blackFormulaImpliedStdDev,
      if_pos (show (0 : ℝ) ≤ 1 ∧ (0 : ℝ) < 1 ∧ (0 : ℝ) ≤ 1 ∧ (0 : ℝ) < 1 ∧ (0 : ℝ) ≤ 1
        by norm_num), happrox]
    rw [if_pos (show (0 : ℝ) ≤ 1 + 1 ∧ (0 : ℝ) < 1 + 1 ∧ (0 : ℝ) ≤ 1 / 1 by norm_num)]
    rw [if_pos (show (0 : ℝ) ≤ Real.sqrt (2 * Real.pi) / 3 by positivity)]
  · intro h
    have h0 : Real.sqrt (2 * Real.pi) = 0 := by linarith
    linarith [sqrt_two_pi_pos]

/-- C4 amended: when no guess is supplied, the seed handed to the root finder
is the approximation evaluated at the already-shifted strike and forward (the
function shifts at lines 210-211 and then passes the displacement again at
line 214), i.e. with the displacement applied twice. -/
theorem blackFormulaImpliedStdDev_seed_eq
    (solve : (ℝ → ℝ) → ℝ → ℝ → ℝ → ℝ → ℝ) (t : OptionType)
    (strike forward blackPrice discount accuracy displacement g : ℝ)
    (h1 : 0 ≤ strike) (h2 : 0 < forward) (h3 : 0 ≤ blackPrice) (h4 : 0 < discount)
    (h5 : 0 ≤ displacement)
    (happrox : blackFormulaImpliedStdDevApproximation t (strike + displacement)
      (forward + displacement) blackPrice discount displacement = Except.ok g) :
    blackFormulaImpliedStdDev solve t strike forward blackPrice discount Option.none
        accuracy displacement
      = if 0 ≤ solve (blackImpliedStdDevHelperF t (strike + displacement)
            (forward + displacement) (blackPrice / discount)) accuracy g 0 3
        then Except.ok (solve (blackImpliedStdDevHelperF t (strike + displacement)
            (forward + displacement) (blackPrice / discount)) accuracy g 0 3)
        else Except.error QlError.guardViolation := by
  simp only [blackFormulaImpliedStdDev, if_pos (And.intro h1 (And.intro h2
    (And.intro h3 (And.intro h4 h5)))), happrox]
  rw [if_pos (show 0 ≤ strike + displacement ∧ 0 < forward + displacement ∧
    0 ≤ blackPrice / discount from
    ⟨by linarith, by linarith, div_nonneg h3 h4.le⟩)]

theorem blackFormulaImpliedStdDev_seed_eq_witness :
    (0 : ℝ) ≤ 1 ∧ (0 : ℝ) < 1 ∧ (0 : ℝ) ≤ 1 ∧ (0 : ℝ) < 1 ∧
    blackFormulaImpliedStdDev (fun _f _acc g _lo _hi => g)
        OptionType.Call 1 1 1 1 Option.none (1 / 100) 1
      = if 0 ≤ (fun _f _acc g _lo _hi => g) (blackImpliedStdDevHelperF OptionType.Call
            (1 + 1) (1 + 1) ((1 : ℝ) / 1)) (1 / 100) (Real.sqrt (2 * Real.pi) / 3) 0 3
        then Except.ok ((fun _f _acc g _lo _hi => g) (blackImpliedStdDevHelperF OptionType.Call
            (1 + 1) (1 + 1) ((1 : ℝ) / 1)) (1 / 100) (Real.sqrt (2 * Real.pi) / 3) 0 3)
        else Except.error QlError.guardViolation :=
  ⟨by norm_num, by norm_num, by norm_num, by norm_num,
    blackFormulaImpliedStdDev_seed_eq (fun _f _acc g _lo _hi => g) OptionType.Call
      1 1 1 1 (1 / 100) 1 (Real.sqrt (2 * Real.pi) / 3)
      (by norm_num) (by norm_num) (by norm_num) (by norm_num) (by norm_num)
      (by norm_num [approx_atm_eval])⟩

/-- C6 counterexample: at the valid input Call, strike 1, forward 2,
blackPrice 0, discount 1, displacement 0 the off-the-money discriminant is
negative and is clamped to zero, but the surviving term
blackPrice/discount - moneyness/2 = -1/2 is negative, so the computed
approximation -sqrt(2π)/6 violates the final QL_ENSURE and the function
raises instead of returning a non-negative value. -/
theorem blackFormulaImpliedStdDevApproximation_guard_fires :
    blackFormulaImpliedStdDevApproximation OptionType.Call 1 2 0 1 0
      = Except.error QlError.guardViolation := by
  simp only [blackFormulaImpliedStdDevApproximation,
    if_pos (show (0 : ℝ) ≤ 1 ∧ (0 : ℝ) < 2 ∧ (0 : ℝ) ≤ 0 ∧ (0 : ℝ) < 1 ∧ (0 : ℝ) ≤ 0
      by norm_num)]
  norm_num [optionSign]
  have hpi : (1 : ℝ) / 4 < Real.pi⁻¹ := by
    have h4 : Real.pi < 4 := lt_trans Real.pi_lt_d2 (by norm_num)
    have := inv_strictAnti₀ Real.pi_pos h4
    linarith [this]
  rw [if_pos hpi, Real.sqrt_zero]
  intro hcon
  exfalso
  have h0 : (0 : ℝ) < Real.sqrt 2 * Real.sqrt Real.pi := by positivity
  nlinarith

lemma approx_returns_nonneg (t : OptionType)
    (strike forward blackPrice discount displacement : ℝ)
    (h1 : 0 ≤ strike) (h2 : 0 < forward) (h3 : 0 ≤ blackPrice) (h4 : 0 < discount)
    (h5 : 0 ≤ displacement)
    (htemp : optionSign t * (forward - strike) / 2 ≤ blackPrice / discount) :
    ∃ v, blackFormulaImpliedStdDevApproximation t strike forward blackPrice
        discount displacement = Except.ok v ∧ 0 ≤ v := by
  have key : ∀ x : ℝ, 0 ≤ x →
      ∃ v, (if 0 ≤ x then Except.ok x else Except.error QlError.guardViolation)
        = Except.ok v ∧ 0 ≤ v :=
    fun x hx => ⟨x, if_pos hx, hx⟩
  simp only [blackFormulaImpliedStdDevApproximation, if_pos (And.intro h1 (And.intro h2
    (And.intro h3 (And.intro h4 h5))))]
  apply key
  by_cases hatm : strike + displacement = forward + displacement
  · rw [if_pos hatm]
    exact div_nonneg (mul_nonneg (div_nonneg h3 h4.le) (Real.sqrt_nonneg _)) (by linarith)
  · rw [if_neg hatm]
    have hbr : optionSign t * ((forward + displacement) - (strike + displacement))
        = optionSign t * (forward - strike) := by ring
    have htmp : 0 ≤ blackPrice / discount
        - optionSign t * ((forward + displacement) - (strike + displacement)) / 2 := by
      rw [hbr]
      linarith
    exact div_nonneg (mul_nonneg (add_nonneg htmp (Real.sqrt_nonneg _))
      (Real.sqrt_nonneg _)) (by linarith)

/-- C6 amended: the discriminant clamp itself never raises; under the
validated preconditions the approximation returns without error a value ≥ 0
provided additionally that blackPrice/discount is at least half the signed
moneyness typeSign*(forward-strike)/2 (without that proviso the final
non-negativity guard can fire, as the counterexample shows). -/
theorem blackFormulaImpliedStdDevApproximation_nonneg (t : OptionType)
    (strike forward blackPrice discount displacement : ℝ)
    (h1 : 0 ≤ strike) (h2 : 0 < forward) (h3 : 0 ≤ blackPrice) (h4 : 0 < discount)
    (h5 : 0 ≤ displacement)
    (htemp : optionSign t * (forward - strike) / 2 ≤ blackPrice / discount) :
    ∃ v, blackFormulaImpliedStdDevApproximation t strike forward blackPrice
        discount displacement = Except.ok v ∧ 0 ≤ v :=
  approx_returns_nonneg t strike forward blackPrice discount displacement
    h1 h2 h3 h4 h5 htemp

theorem blackFormulaImpliedStdDevApproximation_nonneg_witness :
    (0 : ℝ) ≤ 1 ∧ (0 : ℝ) < 2 ∧ (0 : ℝ) ≤ 1 ∧ (0 : ℝ) < 1 ∧
    optionSign OptionType.Call * ((2 : ℝ) - 1) / 2 ≤ 1 / 1 ∧
    ∃ v, blackFormulaImpliedStdDevApproximation OptionType.Call 1 2 1 1 0
      = Except.ok v ∧ 0 ≤ v :=
  ⟨by norm_num, by norm_num, by norm_num, by norm_num,
    by norm_num [optionSign],
    blackFormulaImpliedStdDevApproximation_nonneg OptionType.Call 1 2 1 1 0
      (by norm_num) (by norm_num) (by norm_num) (by norm_num) (le_refl 0)
      (by norm_num [optionSign])⟩

/-- State of a PiecewiseYieldCurve: the LazyObject dirty flag together with
the curve arrays dates_, times_ and data_ (piecewiseyieldcurve.hpp; dates are
modelled as serial numbers). -/
structure CurveState where
  dirty : Bool
  dates : List ℕ
  times : List ℝ
  data : List ℝ

/-- Modelled from the spec: LazyObject::calculate (lazyobject.hpp is not part
of this repository).  Per §4.4 step 6 and §4.5, a query first checks the dirty
flag; if dirty, the full bootstrap (performCalculations, which delegates to
bootstrap_.calculate()) reruns and the flag is cleared; the recompute itself
is an opaque parameter here. -/
def lazyCalculate (recompute : CurveState → CurveState) (s : CurveState) : CurveState :=
  if s.dirty then { recompute s with dirty := false } else s

/-- PiecewiseYieldCurve::maxDate (lines 121-125): calculate(), then
dates_.back(). -/
def pycMaxDate (recompute : CurveState → CurveState) (s : CurveState) : Option ℕ :=
  (lazyCalculate recompute s).dates.getLast?

/-- PiecewiseYieldCurve::times (lines 127-131). -/
def pycTimes (recompute : CurveState → CurveState) (s : CurveState) : List ℝ :=
  (lazyCalculate recompute s).times

/-- PiecewiseYieldCurve::dates (lines 133-137). -/
def pycDates (recompute : CurveState → CurveState) (s : CurveState) : List ℕ :=
  (lazyCalculate recompute s).dates

/-- PiecewiseYieldCurve::data (lines 139-143). -/
def pycData (recompute : CurveState → CurveState) (s : CurveState) : List ℝ :=
  (lazyCalculate recompute s).data

/-- PiecewiseYieldCurve::nodes (lines 145-150): calculate(), then the base
curve's date/value pairs (base_curve::nodes() modelled from the spec §4.5 as
the ordered sequence of date/value pairs). -/
def pycNodes (recompute : CurveState → CurveState) (s : CurveState) : List (ℕ × ℝ) :=
  (lazyCalculate recompute s).dates.zip (lazyCalculate recompute s).data

/-- PiecewiseYieldCurve::discountImpl (lines 158-163): calculate(), then the
base curve's interpolated discount query (base_curve::discountImpl modelled
from the spec §4.5 as the configured interpolation strategy applied to the
committed times and data). -/
def pycDiscountImpl (interp : List ℝ → List ℝ → ℝ → ℝ)
    (recompute : CurveState → CurveState) (s : CurveState) (tq : ℝ) : ℝ :=
  interp (lazyCalculate recompute s).times (lazyCalculate recompute s).data tq

/-- C9: every public accessor of PiecewiseYieldCurve runs the lazy recompute
first, so on a dirty curve each accessor reads the freshly recomputed state
(never the stale stored arrays), and afterwards the dirty flag is clear. -/
theorem pyc_accessors_recompute_first (recompute : CurveState → CurveState)
    (interp : List ℝ → List ℝ → ℝ → ℝ) (s : CurveState) (h : s.dirty = true) :
    pycMaxDate recompute s = (recompute s).dates.getLast?
    ∧ pycTimes recompute s = (recompute s).times
    ∧ pycDates recompute s = (recompute s).dates
    ∧ pycData recompute s = (recompute s).data
    ∧ pycNodes recompute s = (recompute s).dates.zip ((recompute s).data)
    ∧ (∀ tq, pycDiscountImpl interp recompute s tq
        = interp ((recompute s).times) ((recompute s).data) tq)
    ∧ (lazyCalculate recompute s).dirty = false := by
  simp [pycMaxDate, pycTimes, pycDates, pycData, pycNodes, pycDiscountImpl,
    lazyCalculate, h]

/-- A concrete recompute step used to witness the accessor theorem. -/
noncomputable def demoRecompute : CurveState → CurveState := fun s =>
  { s with dates := [0, 1], times := [0, 1], data := [1, 9 / 10] }

theorem pyc_accessors_recompute_first_witness :
    (CurveState.mk true List.nil List.nil List.nil).dirty = true
    ∧ (pycMaxDate demoRecompute (CurveState.mk true List.nil List.nil List.nil)
        = (demoRecompute (CurveState.mk true List.nil List.nil List.nil)).dates.getLast?
      ∧ pycTimes demoRecompute (CurveState.mk true List.nil List.nil List.nil)
        = (demoRecompute (CurveState.mk true List.nil List.nil List.nil)).times
      ∧ pycDates demoRecompute (CurveState.mk true List.nil List.nil List.nil)
        = (demoRecompute (CurveState.mk true List.nil List.nil List.nil)).dates
      ∧ pycData demoRecompute (CurveState.mk true List.nil List.nil List.nil)
        = (demoRecompute (CurveState.mk true List.nil List.nil List.nil)).data
      ∧ pycNodes demoRecompute (CurveState.mk true List.nil List.nil List.nil)
        = (demoRecompute (CurveState.mk true List.nil List.nil List.nil)).dates.zip
            ((demoRecompute (CurveState.mk true List.nil List.nil List.nil)).data)
      ∧ (∀ tq, pycDiscountImpl (fun _ _ _ => 1) demoRecompute
            (CurveState.mk true List.nil List.nil List.nil) tq
          = (fun _ _ _ => (1 : ℝ)) ((demoRecompute (CurveState.mk true List.nil List.nil List.nil)).times)
              ((demoRecompute (CurveState.mk true List.nil List.nil List.nil)).data) tq)
      ∧ (lazyCalculate demoRecompute (CurveState.mk true List.nil List.nil List.nil)).dirty = false) :=
  ⟨rfl, pyc_accessors_recompute_first demoRecompute (fun _ _ _ => 1)
    (CurveState.mk true List.nil List.nil List.nil) rfl⟩

lemma normalCdf_eq_add_intervalIntegral (x : ℝ) :
    normalCdf x = normalCdf 0 + ∫ t in (0 : ℝ)..x, normalPdf t := by
  have h := intervalIntegral.integral_Iic_sub_Iic (a := (0 : ℝ)) (b := x)
    integrable_normalPdf.integrableOn integrable_normalPdf.integrableOn
  have h1 : normalCdf x - normalCdf 0 = ∫ t in (0 : ℝ)..x, normalPdf t := h
  linarith

lemma normalCdf_hasDerivAt (x : ℝ) : HasDerivAt normalCdf (normalPdf x) x := by
  have hfun : normalCdf = fun u => normalCdf 0 + ∫ t in (0 : ℝ)..u, normalPdf t :=
    funext normalCdf_eq_add_intervalIntegral
  rw [hfun]
  exact (intervalIntegral.integral_hasDerivAt_right
    integrable_normalPdf.intervalIntegrable
    normalPdf_continuous.stronglyMeasurable.stronglyMeasurableAtFilter
    normalPdf_continuous.continuousAt).const_add (normalCdf 0)

/-- Undiscounted signed Black core value as a function of the standard
deviation, for fixed shifted forward and strike. -/
noncomputable def blackCore (t : OptionType) (F K : ℝ) : ℝ → ℝ := fun σ =>
  optionSign t * (F * normalCdf (optionSign t * (Real.log (F / K) / σ + 0.5 * σ))
    - K * normalCdf (optionSign t * (Real.log (F / K) / σ + 0.5 * σ - σ)))

lemma blackCore_nonneg (t : OptionType) (F K σ : ℝ)
    (hF : 0 < F) (hK : 0 < K) (hσ : 0 < σ) : 0 ≤ blackCore t F K σ :=
  black_core_signed_nonneg t F K σ hF hK hσ

lemma blackCore_gt_intrinsic (t : OptionType) (F K σ : ℝ)
    (hF : 0 < F) (hK : 0 < K) (hσ : 0 < σ) :
    max (optionSign t * (F - K)) 0 < blackCore t F K σ := by
  cases t
  case Call =>
    have h := black_core_gt_max F K σ hF hK hσ
    unfold blackCore
    have e1 : (1 : ℝ) * (Real.log (F / K) / σ + 0.5 * σ)
        = Real.log (F / K) / σ + σ / 2 := by ring
    have e2 : (1 : ℝ) * (Real.log (F / K) / σ + 0.5 * σ - σ)
        = Real.log (F / K) / σ - σ / 2 := by ring
    simp only [optionSign, e1, e2, one_mul]
    exact h
  case Put =>
    have h := black_put_core_gt_max F K σ hF hK hσ
    unfold blackCore
    have e1 : (-1 : ℝ) * (Real.log (F / K) / σ + 0.5 * σ)
        = -(Real.log (F / K) / σ + σ / 2) := by ring
    have e2 : (-1 : ℝ) * (Real.log (F / K) / σ + 0.5 * σ - σ)
        = -(Real.log (F / K) / σ - σ / 2) := by ring
    have e3 : (-1 : ℝ) * (F - K) = K - F := by ring
    simp only [optionSign, e1, e2, e3]
    have e4 : -1 * (F * normalCdf (-(Real.log (F / K) / σ + σ / 2))
        - K * normalCdf (-(Real.log (F / K) / σ - σ / 2)))
      = K * normalCdf (-(Real.log (F / K) / σ - σ / 2))
        - F * normalCdf (-(Real.log (F / K) / σ + σ / 2)) := by ring
    rw [e4]
    exact h

lemma FK_pdf_identity (F K σ : ℝ) (hF : 0 < F) (hK : 0 < K) (hσ : σ ≠ 0) :
    K * normalPdf (Real.log (F / K) / σ + 0.5 * σ - σ)
      = F * normalPdf (Real.log (F / K) / σ + 0.5 * σ) := by
  have hdiff : (Real.log (F / K) / σ + 0.5 * σ) ^ 2
      - (Real.log (F / K) / σ + 0.5 * σ - σ) ^ 2 = 2 * Real.log (F / K) := by
    field_simp
    ring
  have hm : Real.log (F / K) = Real.log F - Real.log K := Real.log_div hF.ne' hK.ne'
  have key : ∀ x y : ℝ, x ^ 2 - y ^ 2 = 2 * (Real.log F - Real.log K) →
      K * Real.exp (-(y ^ 2) / 2) = F * Real.exp (-(x ^ 2) / 2) := by
    intro x y hxy
    rw [show K = Real.exp (Real.log K) from (Real.exp_log hK).symm,
      show F = Real.exp (Real.log F) from (Real.exp_log hF).symm]
    rw [← Real.exp_add, ← Real.exp_add]
    congr 1
    linarith
  have key2 := key (Real.log (F / K) / σ + 0.5 * σ) (Real.log (F / K) / σ + 0.5 * σ - σ)
    (by linarith)
  unfold normalPdf
  calc K * ((Real.sqrt (2 * Real.pi))⁻¹
        * Real.exp (-((Real.log (F / K) / σ + 0.5 * σ - σ) ^ 2) / 2))
      = (Real.sqrt (2 * Real.pi))⁻¹
        * (K * Real.exp (-((Real.log (F / K) / σ + 0.5 * σ - σ) ^ 2) / 2)) := by ring
    _ = (Real.sqrt (2 * Real.pi))⁻¹
        * (F * Real.exp (-((Real.log (F / K) / σ + 0.5 * σ) ^ 2) / 2)) := by rw [key2]
    _ = F * ((Real.sqrt (2 * Real.pi))⁻¹
        * Real.exp (-((Real.log (F / K) / σ + 0.5 * σ) ^ 2) / 2)) := by ring

lemma normalPdf_sign_mul (t : OptionType) (x : ℝ) :
    normalPdf (optionSign t * x) = normalPdf x := by
  cases t
  case Call => simp [optionSign]
  case Put => simp [optionSign, normalPdf_neg]

lemma blackCore_hasDerivAt (t : OptionType) (F K σ0 : ℝ)
    (hF : 0 < F) (hK : 0 < K) (hσ : 0 < σ0) :
    HasDerivAt (blackCore t F K)
      (F * normalPdf (Real.log (F / K) / σ0 + 0.5 * σ0)) σ0 := by
  have hinv : HasDerivAt (fun σ : ℝ => σ⁻¹) (-(σ0 ^ 2)⁻¹) σ0 := hasDerivAt_inv hσ.ne'
  have hd1' : HasDerivAt (fun σ : ℝ => Real.log (F / K) * σ⁻¹ + 0.5 * σ)
      (Real.log (F / K) * -(σ0 ^ 2)⁻¹ + 0.5) σ0 := by
    have h2 : HasDerivAt (fun σ : ℝ => 0.5 * σ) 0.5 σ0 := by
      simpa using (hasDerivAt_id σ0).const_mul (0.5 : ℝ)
    exact (hinv.const_mul (Real.log (F / K))).add h2
  have hfun1 : (fun σ : ℝ => Real.log (F / K) / σ + 0.5 * σ)
      = fun σ : ℝ => Real.log (F / K) * σ⁻¹ + 0.5 * σ := by
    funext σ
    rw [div_eq_mul_inv]
  have hd1 : HasDerivAt (fun σ : ℝ => Real.log (F / K) / σ + 0.5 * σ)
      (Real.log (F / K) * -(σ0 ^ 2)⁻¹ + 0.5) σ0 := by
    rw [hfun1]
    exact hd1'
  have hd2 : HasDerivAt (fun σ : ℝ => Real.log (F / K) / σ + 0.5 * σ - σ)
      (Real.log (F / K) * -(σ0 ^ 2)⁻¹ + 0.5 - 1) σ0 := hd1.sub (hasDerivAt_id σ0)
  have hsd1 : HasDerivAt (fun σ : ℝ => optionSign t * (Real.log (F / K) / σ + 0.5 * σ))
      (optionSign t * (Real.log (F / K) * -(σ0 ^ 2)⁻¹ + 0.5)) σ0 := hd1.const_mul _
  have hsd2 : HasDerivAt (fun σ : ℝ => optionSign t * (Real.log (F / K) / σ + 0.5 * σ - σ))
      (optionSign t * (Real.log (F / K) * -(σ0 ^ 2)⁻¹ + 0.5 - 1)) σ0 := hd2.const_mul _
  have hΦ1 : HasDerivAt
      (fun σ : ℝ => normalCdf (optionSign t * (Real.log (F / K) / σ + 0.5 * σ)))
      (normalPdf (optionSign t * (Real.log (F / K) / σ0 + 0.5 * σ0))
        * (optionSign t * (Real.log (F / K) * -(σ0 ^ 2)⁻¹ + 0.5))) σ0 :=
    (normalCdf_hasDerivAt _).comp σ0 hsd1
  have hΦ2 : HasDerivAt
      (fun σ : ℝ => normalCdf (optionSign t * (Real.log (F / K) / σ + 0.5 * σ - σ)))
      (normalPdf (optionSign t * (Real.log (F / K) / σ0 + 0.5 * σ0 - σ0))
        * (optionSign t * (Real.log (F / K) * -(σ0 ^ 2)⁻¹ + 0.5 - 1))) σ0 :=
    (normalCdf_hasDerivAt _).comp σ0 hsd2
  have hcomb := ((hΦ1.const_mul F).sub (hΦ2.const_mul K)).const_mul (optionSign t)
  have hid := FK_pdf_identity F K σ0 hF hK hσ.ne'
  unfold blackCore
  convert hcomb using 1
  cases t
  case Call =>
    simp only [optionSign, one_mul] at hid ⊢
    linear_combination (Real.log (F / K) * -(σ0 ^ 2)⁻¹ + 0.5 - 1) * hid
  case Put =>
    have hn1 : ∀ x : ℝ, normalPdf (-1 * x) = normalPdf x := fun x => by
      rw [neg_one_mul, normalPdf_neg]
    simp only [optionSign, hn1] at hid ⊢
    linear_combination (Real.log (F / K) * -(σ0 ^ 2)⁻¹ + 0.5 - 1) * hid

lemma blackCore_strictMonoOn (t : OptionType) (F K : ℝ) (hF : 0 < F) (hK : 0 < K) :
    StrictMonoOn (blackCore t F K) (Ioi 0) := by
  refine strictMonoOn_of_deriv_pos (convex_Ioi 0) ?_ ?_
  · intro x hx
    exact (blackCore_hasDerivAt t F K x hF hK hx).differentiableAt.continuousAt.continuousWithinAt
  · intro x hx
    rw [interior_Ioi] at hx
    rw [(blackCore_hasDerivAt t F K x hF hK hx).deriv]
    exact mul_pos hF (normalPdf_pos _)

lemma helperF_pos_eq (t : OptionType) (strike forward price σ : ℝ) (hσ : σ ≠ 0) :
    blackImpliedStdDevHelperF t strike forward price σ
      = max 0 (blackCore t forward strike σ) - price := by
  simp only [blackImpliedStdDevHelperF, blackCore, if_neg hσ]
  have e1 : optionSign t * Real.log (forward / strike) / σ + 0.5 * optionSign t * σ
      = optionSign t * (Real.log (forward / strike) / σ + 0.5 * σ) := by ring
  have e2 : optionSign t * Real.log (forward / strike) / σ - 0.5 * optionSign t * σ
      = optionSign t * (Real.log (forward / strike) / σ + 0.5 * σ - σ) := by ring
  rw [e1, e2]
  have e3 : optionSign t * forward
        * normalCdf (optionSign t * (Real.log (forward / strike) / σ + 0.5 * σ))
      - optionSign t * strike
        * normalCdf (optionSign t * (Real.log (forward / strike) / σ + 0.5 * σ - σ))
    = optionSign t * (forward
        * normalCdf (optionSign t * (Real.log (forward / strike) / σ + 0.5 * σ))
      - strike
        * normalCdf (optionSign t * (Real.log (forward / strike) / σ + 0.5 * σ - σ))) := by
    ring
  rw [e3]

lemma helperF_zero_eq (t : OptionType) (strike forward price : ℝ) :
    blackImpliedStdDevHelperF t strike forward price 0
      = max (optionSign t * forward - optionSign t * strike) 0 - price := by
  unfold blackImpliedStdDevHelperF
  rw [if_pos rfl]

/-- Modelled from the spec: contract of the external 1-D safeguarded root
finder (§6; newtonsafe.hpp is not part of this repository).
solve(objectiveFn, accuracy, guess, xMin, xMax) converges: it returns a value
in the bracket lying within `accuracy` of a root of the objective in the
bracket. -/
def SolverSpec (f : ℝ → ℝ) (accuracy xMin xMax result : ℝ) : Prop :=
  result ∈ Icc xMin xMax ∧ ∃ r, r ∈ Icc xMin xMax ∧ f r = 0 ∧ |result - r| ≤ accuracy

-- One admissible behaviour of the root finder: return the lower bracket end
-- when the objective already vanishes there, else some root in the bracket.
open Classical in
noncomputable def rootPickSolver : (ℝ → ℝ) → ℝ → ℝ → ℝ → ℝ → ℝ :=
  fun f _accuracy guess xMin xMax =>
    if f xMin = 0 then xMin
    else if h : ∃ r, r ∈ Icc xMin xMax ∧ f r = 0 then h.choose else guess

lemma rootPickSolver_spec (f : ℝ → ℝ) (accuracy guess xMin xMax : ℝ)
    (hacc : 0 ≤ accuracy) (hroot : ∃ r, r ∈ Icc xMin xMax ∧ f r = 0) :
    SolverSpec f accuracy xMin xMax (rootPickSolver f accuracy guess xMin xMax) := by
  obtain ⟨r0, hr0mem, hr0⟩ := hroot
  have hle : xMin ≤ xMax := le_trans hr0mem.1 hr0mem.2
  unfold rootPickSolver SolverSpec
  by_cases h0 : f xMin = 0
  · rw [if_pos h0]
    exact ⟨⟨le_refl _, hle⟩, xMin, ⟨le_refl _, hle⟩, h0, by simpa using hacc⟩
  · rw [if_neg h0, dif_pos (⟨r0, hr0mem, hr0⟩ : ∃ r, r ∈ Icc xMin xMax ∧ f r = 0)]
    have hspec := (⟨r0, hr0mem, hr0⟩ : ∃ r, r ∈ Icc xMin xMax ∧ f r = 0).choose_spec
    exact ⟨hspec.1, _, hspec.1, hspec.2, by simpa using hacc⟩

lemma blackSpecValue_general (t : OptionType)
    (strike forward stdDev discount displacement : ℝ)
    (hσ : stdDev ≠ 0) (hK : strike + displacement ≠ 0) :
    blackSpecValue t strike forward stdDev discount displacement
      = discount * blackCore t (forward + displacement) (strike + displacement) stdDev := by
  simp only [blackSpecValue, blackCore, if_neg hσ, if_neg hK]
  have e1 : Real.log ((forward + displacement) / (strike + displacement)) / stdDev
        + stdDev / 2
      = Real.log ((forward + displacement) / (strike + displacement)) / stdDev
        + 0.5 * stdDev := by ring
  rw [e1]
  ring

lemma helperF_root_unique (t : OptionType) (K1 F1 σ r : ℝ)
    (hF : 0 < F1) (hK : 0 < K1) (hσ0 : 0 < σ)
    (hr : r ∈ Icc (0 : ℝ) 3)
    (hroot : blackImpliedStdDevHelperF t K1 F1 (blackCore t F1 K1 σ) r = 0) :
    r = σ := by
  have hgt := blackCore_gt_intrinsic t F1 K1 σ hF hK hσ0
  by_cases hr0 : r = 0
  · exfalso
    subst hr0
    rw [helperF_zero_eq] at hroot
    have e : optionSign t * F1 - optionSign t * K1 = optionSign t * (F1 - K1) := by ring
    rw [e] at hroot
    linarith
  · have hrpos : 0 < r := lt_of_le_of_ne hr.1 (Ne.symm hr0)
    rw [helperF_pos_eq t K1 F1 _ r hr0,
      max_eq_right (blackCore_nonneg t F1 K1 r hF hK hrpos)] at hroot
    have heq : blackCore t F1 K1 r = blackCore t F1 K1 σ := by linarith
    exact (blackCore_strictMonoOn t F1 K1 hF hK).injOn (mem_Ioi.mpr hrpos)
      (mem_Ioi.mpr hσ0) heq

/-- C7 (amended): for every valid input with positive shifted strike,
stdDev in (0, 3] and non-negative accuracy, and for every root finder obeying
the spec contract, feeding the blackFormula price back into
blackFormulaImpliedStdDev (no caller guess) succeeds and recovers the original
stdDev to within the accuracy. -/
theorem blackFormula_impliedStdDev_roundtrip
    (solve : (ℝ → ℝ) → ℝ → ℝ → ℝ → ℝ → ℝ)
    (hsolve : ∀ f acc g lo hi, 0 ≤ acc → (∃ r, r ∈ Icc lo hi ∧ f r = 0) →
      SolverSpec f acc lo hi (solve f acc g lo hi))
    (t : OptionType) (strike forward stdDev discount displacement accuracy price : ℝ)
    (h1 : 0 ≤ strike) (h2 : 0 < forward) (hσ0 : 0 < stdDev) (hσ3 : stdDev ≤ 3)
    (h4 : 0 < discount) (h5 : 0 ≤ displacement) (hK1 : 0 < strike + displacement)
    (hacc : 0 ≤ accuracy)
    (hprice : blackFormula t strike forward stdDev discount displacement
      = Except.ok price) :
    ∃ sd, blackFormulaImpliedStdDev solve t strike forward price discount Option.none
        accuracy displacement = Except.ok sd ∧ |sd - stdDev| ≤ accuracy := by
  have hF1 : 0 < forward + displacement := by linarith
  have hspec := blackFormula_eq_specValue t strike forward stdDev discount displacement
    h1 h2 hσ0.le h4 h5
  rw [hprice] at hspec
  have hpv : price = blackSpecValue t strike forward stdDev discount displacement :=
    Except.ok.inj hspec
  have hcore : price = discount
      * blackCore t (forward + displacement) (strike + displacement) stdDev := by
    rw [hpv]
    exact blackSpecValue_general t strike forward stdDev discount displacement
      hσ0.ne' hK1.ne'
  have hgt := blackCore_gt_intrinsic t (forward + displacement) (strike + displacement)
    stdDev hF1 hK1 hσ0
  have hcorepos : 0 < blackCore t (forward + displacement) (strike + displacement) stdDev :=
    lt_of_le_of_lt (le_max_right _ _) hgt
  have hppos : 0 < price := by
    rw [hcore]
    exact mul_pos h4 hcorepos
  have hpdisc : price / discount
      = blackCore t (forward + displacement) (strike + displacement) stdDev := by
    rw [hcore]
    field_simp
  have htemp : optionSign t * ((forward + displacement) - (strike + displacement)) / 2
      ≤ price / discount := by
    rw [hpdisc]
    rcases le_total 0 (optionSign t * ((forward + displacement) - (strike + displacement)))
      with hc | hc
    · have hle := le_max_left (optionSign t
        * ((forward + displacement) - (strike + displacement))) (0 : ℝ)
      linarith
    · have hle := le_max_right (optionSign t
        * ((forward + displacement) - (strike + displacement))) (0 : ℝ)
      linarith
  obtain ⟨g, hgok, _hgnn⟩ := approx_returns_nonneg t (strike + displacement)
    (forward + displacement) price discount displacement (by linarith) hF1 hppos.le h4 h5 htemp
  have hfσ : blackImpliedStdDevHelperF t (strike + displacement) (forward + displacement)
      (price / discount) stdDev = 0 := by
    rw [helperF_pos_eq _ _ _ _ _ hσ0.ne',
      max_eq_right (blackCore_nonneg t (forward + displacement) (strike + displacement)
        stdDev hF1 hK1 hσ0), hpdisc]
    ring
  have hroot : ∃ r, r ∈ Icc (0 : ℝ) 3 ∧ blackImpliedStdDevHelperF t (strike + displacement)
      (forward + displacement) (price / discount) r = 0 :=
    ⟨stdDev, ⟨hσ0.le, hσ3⟩, hfσ⟩
  obtain ⟨hmem, r, hrmem, hr0, hclose⟩ := hsolve (blackImpliedStdDevHelperF t
    (strike + displacement) (forward + displacement) (price / discount))
    accuracy g 0 3 hacc hroot
  have hru : r = stdDev := by
    rw [hpdisc] at hr0
    exact helperF_root_unique t (strike + displacement) (forward + displacement)
      stdDev r hF1 hK1 hσ0 hrmem hr0
  refine ⟨solve (blackImpliedStdDevHelperF t (strike + displacement)
    (forward + displacement) (price / discount)) accuracy g 0 3, ?_, ?_⟩
  · simp only [blackFormulaImpliedStdDev, if_pos (And.intro h1 (And.intro h2
      (And.intro hppos.le (And.intro h4 h5)))), hgok]
    rw [if_pos (show 0 ≤ strike + displacement ∧ 0 < forward + displacement ∧
      0 ≤ price / discount from ⟨by linarith, hF1, div_nonneg hppos.le h4.le⟩)]
    rw [if_pos hmem.1]
  · rw [hru] at hclose
    exact hclose

/-- C7 counterexample: at the valid input strike 0 (displacement 0) the Black
price discount*forward carries no volatility information; the helper objective
already vanishes at stdDev = 0, so the contract-conforming root finder
rootPickSolver returns 0 and the round trip fails to recover the true
stdDev 1 to within accuracy 1/100. -/
theorem blackFormulaImpliedStdDev_roundtrip_zero_strike :
    blackFormula OptionType.Call 0 1 1 1 0 = Except.ok 1 ∧
    blackFormulaImpliedStdDev rootPickSolver OptionType.Call 0 1 1 1 Option.none
        (1 / 100) 0 = Except.ok 0 ∧
    ¬ (|(0 : ℝ) - 1| ≤ 1 / 100) := by
  refine ⟨?_, ?_, by norm_num⟩
  · norm_num [blackFormula]
  · obtain ⟨g, hgok, _⟩ := approx_returns_nonneg OptionType.Call (0 + 0) (1 + 0) 1 1 0
      (by norm_num) (by norm_num) (by norm_num) (by norm_num) (by norm_num)
      (by norm_num [optionSign])
    simp only [blackFormulaImpliedStdDev, if_pos (show (0 : ℝ) ≤ 0 ∧ (0 : ℝ) < 1 ∧
      (0 : ℝ) ≤ 1 ∧ (0 : ℝ) < 1 ∧ (0 : ℝ) ≤ 0 by norm_num), hgok]
    rw [if_pos (show (0 : ℝ) ≤ 0 + 0 ∧ (0 : ℝ) < 1 + 0 ∧ (0 : ℝ) ≤ 1 / 1 by norm_num)]
    have hf0 : blackImpliedStdDevHelperF OptionType.Call (0 + 0) (1 + 0) (1 / 1) 0 = 0 := by
      rw [helperF_zero_eq]
      norm_num [optionSign]
    have hsolve0 : rootPickSolver (blackImpliedStdDevHelperF OptionType.Call (0 + 0)
        (1 + 0) (1 / 1)) (1 / 100) g 0 3 = 0 := by
      unfold rootPickSolver
      rw [if_pos hf0]
    rw [hsolve0]
    norm_num

theorem blackFormula_impliedStdDev_roundtrip_witness :
    (0 : ℝ) ≤ 1 ∧ (0 : ℝ) < 1 ∧ (0 : ℝ) < 1 ∧ (1 : ℝ) ≤ 3 ∧ (0 : ℝ) < 1 + 0 ∧
    blackFormula OptionType.Call 1 1 1 1 0
      = Except.ok (blackSpecValue OptionType.Call 1 1 1 1 0) ∧
    ∃ sd, blackFormulaImpliedStdDev rootPickSolver OptionType.Call 1 1
        (blackSpecValue OptionType.Call 1 1 1 1 0) 1 Option.none 1 0
      = Except.ok sd ∧ |sd - 1| ≤ 1 :=
  ⟨by norm_num, by norm_num, by norm_num, by norm_num, by norm_num,
    blackFormula_eq_specValue OptionType.Call 1 1 1 1 0
      (by norm_num) (by norm_num) (by norm_num) (by norm_num) (le_refl 0),
    blackFormula_impliedStdDev_roundtrip rootPickSolver
      (fun f acc g lo hi hacc hroot => rootPickSolver_spec f acc g lo hi hacc hroot)
      OptionType.Call 1 1 1 1 0 1 (blackSpecValue OptionType.Call 1 1 1 1 0)
      (by norm_num) (by norm_num) (by norm_num) (by norm_num) (by norm_num)
      (le_refl 0) (by norm_num) (by norm_num)
      (blackFormula_eq_specValue OptionType.Call 1 1 1 1 0
        (by norm_num) (by norm_num) (by norm_num) (by norm_num) (le_refl 0))⟩
